import Mathlib

/-!
Verification of the Fuzzy Cost-per-Search (CPS) calculator
(`CPS_Viz_v2.py`) against its natural-language specification.

The program has two logical components:
* `compute_cps` — the pure CPS formula over three parallel lists
  (fixed costs `P_i`, per-call costs `C_i`, calls-per-search `A_i`)
  and a search volume `N_s`;
* the range sweep in `main` (lines 128–131), which guards on
  `N_s_min < N_s_max and N_s_step > 0`, truncates the three sweep
  parameters with `int()`, generates `range(int(min), int(max)+1, int(step))`
  and calls `compute_cps` at every generated value.

Numbers are modelled as rationals (the spec speaks of reals; the source
uses Python numerics).  Python exceptions and the `st.error` early-return
paths are modelled with `Except`.
-/

/-- The failure modes the program can surface: the `ValueError` raised by
`compute_cps` on misaligned lists (and by `range` on a zero step), the
`ZeroDivisionError` raised by the division `total_platform_costs / N_s`
when `N_s = 0`, and the two `st.error` early-return paths of `main`
(empty record table; invalid sweep range). -/
inductive PyError where
  | valueError
  | zeroDivisionError
  | emptyInput
  | invalidRange
deriving DecidableEq

/-- Shallow embedding of `compute_cps` (CPS_Viz_v2.py lines 5–21):
validate that the three lists have equal length (else `ValueError`),
then return `sum(P_i_list) / N_s + sum(C_i * A_i for ...)`; the division
raises `ZeroDivisionError` when `N_s = 0`. -/
def compute_cps (P_i_list C_i_list A_i_list : List ℚ) (N_s : ℚ) :
    Except PyError ℚ :=
  if P_i_list.length = C_i_list.length ∧ C_i_list.length = A_i_list.length then
    if N_s = 0 then .error .zeroDivisionError
    else
      let total_platform_costs := P_i_list.sum
      let platform_costs_per_search := total_platform_costs / N_s
      let api_call_costs_per_search :=
        ((C_i_list.zip A_i_list).map fun p => p.1 * p.2).sum
      .ok (platform_costs_per_search + api_call_costs_per_search)
  else .error .valueError

/-- The spec's `totalFixedCost / searchVolume` numerator:
`totalFixedCost = sum(record.fixedCost for record in records)`. -/
def fixedTerm (P : List ℚ) : ℚ := P.sum

/-- The spec's `variableCostPerSearch =
sum(record.costPerCall * record.callsPerSearch for record in records)`. -/
def variableTerm (C A : List ℚ) : ℚ := ((C.zip A).map fun p => p.1 * p.2).sum

/-- One row of the editable platform table: name, fixed cost `P_i`,
cost per API call `C_i`, API calls per search `A_i`. -/
structure PlatformCostRecord where
  name : String
  fixedCost : ℚ
  costPerCall : ℚ
  callsPerSearch : ℚ
deriving DecidableEq

/-- `compute_cps` on the column view of a record table, exactly as `main`
extracts the three parallel lists from the edited table
(CPS_Viz_v2.py lines 101–103). -/
def cps_of_records (recs : List PlatformCostRecord) (N_s : ℚ) :
    Except PyError ℚ :=
  compute_cps (recs.map (·.fixedCost)) (recs.map (·.costPerCall))
    (recs.map (·.callsPerSearch)) N_s

/-- The caller-side flow of `main` around the formula
(CPS_Viz_v2.py lines 95–117): if the edited table is empty, show
"Please enter at least one platform." and return without invoking the
formula; otherwise extract the columns and call `compute_cps`. -/
def main_compute (recs : List PlatformCostRecord) (N_s : ℚ) :
    Except PyError ℚ :=
  if recs.isEmpty then .error .emptyInput
  else cps_of_records recs N_s

/-- Python's `int()` on a real value: truncation toward zero. -/
def ratTrunc (q : ℚ) : ℤ := q.num.tdiv q.den

/-- Python's `range(a, b, s)` as a list: `ValueError` when `s = 0`;
for `s > 0` the values `a, a + s, a + 2*s, ...` strictly below `b`
(`max 0 (ceil ((b - a) / s))` of them); symmetrically downward for
`s < 0`. -/
def pyRange (a b s : ℤ) : Except PyError (List ℤ) :=
  if s = 0 then .error .valueError
  else if 0 < s then
    .ok ((List.range ((b - a + s - 1).tdiv s).toNat).map fun (i : ℕ) => a + s * (i : ℤ))
  else
    .ok ((List.range ((a - b + (-s) - 1).tdiv (-s)).toNat).map fun (i : ℕ) => a + s * (i : ℤ))

/-- A Python list comprehension `[f(x) for x in xs]` over fallible `f`:
evaluated left to right, the first exception aborts the whole list. -/
def mapExcept (f : ℤ → Except PyError ℚ) : List ℤ → Except PyError (List ℚ)
  | [] => .ok []
  | x :: xs =>
    match f x with
    | .error e => .error e
    | .ok y =>
      match mapExcept f xs with
      | .error e => .error e
      | .ok ys => .ok (y :: ys)

/-- The range sweep of `main` (CPS_Viz_v2.py lines 128–131): if
`N_s_min < N_s_max and N_s_step > 0`, build
`N_s_values = list(range(int(N_s_min), int(N_s_max) + 1, int(N_s_step)))`,
evaluate `compute_cps` at each value, and pair each value with its result
(the two columns of `plot_data`); otherwise show the invalid-range error
and produce nothing. -/
def evaluateRange (P_i_list C_i_list A_i_list : List ℚ)
    (N_s_min N_s_max N_s_step : ℚ) : Except PyError (List (ℤ × ℚ)) :=
  if N_s_min < N_s_max ∧ 0 < N_s_step then
    match pyRange (ratTrunc N_s_min) (ratTrunc N_s_max + 1) (ratTrunc N_s_step) with
    | .error e => .error e
    | .ok N_s_values =>
      match mapExcept (fun v => compute_cps P_i_list C_i_list A_i_list (v : ℚ))
          N_s_values with
      | .error e => .error e
      | .ok cps_values => .ok (N_s_values.zip cps_values)
  else .error .invalidRange

/-- Modelled from the spec (§4.2): the arithmetic sequence
`min, min + step, ..., ≤ max`, inclusive of the endpoint when it lands
exactly on a step boundary, for integer parameters with `step ≥ 1`. -/
def specArithSeq (a b s : ℤ) : List ℤ :=
  if a ≤ b then
    (List.range ((b - a).toNat / s.toNat + 1)).map fun (i : ℕ) => a + s * (i : ℤ)
  else []

/-! ### Helper lemmas -/

theorem compute_cps_eq {P C A : List ℚ} {N : ℚ} (h1 : P.length = C.length)
    (h2 : C.length = A.length) (h3 : N ≠ 0) :
    compute_cps P C A N = .ok (fixedTerm P / N + variableTerm C A) := by
  unfold compute_cps fixedTerm variableTerm
  rw [if_pos ⟨h1, h2⟩, if_neg h3]

theorem compute_cps_zero_volume {P C A : List ℚ} (h1 : P.length = C.length)
    (h2 : C.length = A.length) :
    compute_cps P C A 0 = .error .zeroDivisionError := by
  unfold compute_cps
  rw [if_pos ⟨h1, h2⟩, if_pos rfl]

theorem zip_map_self {α β : Type} (g : α → β) (l : List α) :
    l.zip (l.map g) = l.map fun x => (x, g x) := by
  have h := List.zip_map' id g l
  simpa using h

theorem sum_map_two_mul (l : List ℚ) : (l.map fun x => 2 * x).sum = 2 * l.sum := by
  induction l with
  | nil => simp
  | cons a t ih => simp [ih]; ring

theorem mapExcept_ok (f : ℤ → Except PyError ℚ) (g : ℤ → ℚ) (l : List ℤ)
    (h : ∀ x ∈ l, f x = .ok (g x)) : mapExcept f l = .ok (l.map g) := by
  induction l with
  | nil => rfl
  | cons a t ih =>
    have ha := h a (List.mem_cons_self a t)
    have ht := ih fun x hx => h x (List.mem_cons_of_mem a hx)
    simp [mapExcept, ha, ht]

instance {ε α : Type} [DecidableEq ε] [DecidableEq α] :
    DecidableEq (Except ε α) := fun x y =>
  match x, y with
  | .error a, .error b =>
    if h : a = b then .isTrue (by rw [h]) else .isFalse (by simp [h])
  | .ok a, .ok b =>
    if h : a = b then .isTrue (by rw [h]) else .isFalse (by simp [h])
  | .error _, .ok _ => .isFalse (by simp)
  | .ok _, .error _ => .isFalse (by simp)

theorem ratTrunc_eq_floor {q : ℚ} (h : 0 ≤ q) : ratTrunc q = ⌊q⌋ := by
  rw [ratTrunc, Rat.floor_def]
  exact Int.tdiv_eq_ediv (Rat.num_nonneg.mpr h) (Int.ofNat_nonneg _)

theorem ratTrunc_intCast (z : ℤ) : ratTrunc (z : ℚ) = z := by
  rw [ratTrunc, Rat.num_intCast, Rat.den_intCast]
  exact Int.tdiv_one z

/-! ### Claim theorems -/

/-- C1: for equal-length lists of fixed costs, per-call costs and
calls-per-search, and any search volume distinct from zero, `compute_cps`
returns `(sum of fixed costs) / N_s + sum (costPerCall * callsPerSearch)`,
exactly the four-step algorithm of the spec. -/
theorem compute_cps_four_step_formula (P C A : List ℚ) (N_s : ℚ)
    (h1 : P.length = C.length) (h2 : C.length = A.length) (h3 : N_s ≠ 0) :
    compute_cps P C A N_s = .ok (fixedTerm P / N_s + variableTerm C A) :=
  compute_cps_eq h1 h2 h3

theorem compute_cps_four_step_formula_witness :
    ([30, 75] : List ℚ).length = [0.0088, 0.02].length ∧
      ([0.0088, 0.02] : List ℚ).length = [2, 2].length ∧ (5000 : ℚ) ≠ 0 ∧
      compute_cps [30, 75] [0.0088, 0.02] [2, 2] 5000 =
        .ok (fixedTerm [30, 75] / 5000 + variableTerm [0.0088, 0.02] [2, 2]) :=
  ⟨rfl, rfl, by norm_num,
    compute_cps_four_step_formula [30, 75] [0.0088, 0.02] [2, 2] 5000 rfl rfl
      (by norm_num)⟩

/-- C2 counterexample: at the negative search volume `-5` the calculator
does not fail — it returns the value `-2` (for records with total fixed
cost `10` and no per-call costs), a silently wrong number; no `InvalidInput`
failure is raised for negative volumes. -/
theorem compute_cps_neg_volume_counterexample :
    (-5 : ℚ) ≤ 0 ∧ compute_cps [10] [0] [0] (-5) = .ok (-2) := by
  refine ⟨by norm_num, ?_⟩
  rw [compute_cps_eq (P := [10]) (C := [0]) (A := [0]) rfl rfl (by norm_num)]
  norm_num [fixedTerm, variableTerm]

/-- C2 (amended): the calculator fails only at search volume exactly `0`
(with a `ZeroDivisionError`); for every negative search volume it instead
returns a value. -/
theorem compute_cps_volume_validation (P C A : List ℚ)
    (h1 : P.length = C.length) (h2 : C.length = A.length) :
    compute_cps P C A 0 = .error .zeroDivisionError ∧
      ∀ N : ℚ, N < 0 → ∃ v, compute_cps P C A N = .ok v :=
  ⟨compute_cps_zero_volume h1 h2, fun _ hN =>
    ⟨_, compute_cps_eq h1 h2 (ne_of_lt hN)⟩⟩

theorem compute_cps_volume_validation_witness :
    ([10] : List ℚ).length = [0].length ∧ ([0] : List ℚ).length = [0].length ∧
      (compute_cps [10] [0] [0] 0 = .error .zeroDivisionError ∧
        ∀ N : ℚ, N < 0 → ∃ v, compute_cps [10] [0] [0] N = .ok v) :=
  ⟨rfl, rfl, compute_cps_volume_validation [10] [0] [0] rfl rfl⟩

/-- C3: an empty record table fails with the empty-input error raised by
the caller (`main`, lines 95–97), which never invokes the formula; the
calculator itself accepts three empty lists and returns `0`. -/
theorem empty_records_caught_by_caller (N_s : ℚ) (hN : N_s ≠ 0) :
    main_compute [] N_s = .error .emptyInput ∧
      compute_cps [] [] [] N_s = .ok 0 := by
  refine ⟨rfl, ?_⟩
  rw [compute_cps_eq rfl rfl hN]
  simp [fixedTerm, variableTerm]

theorem empty_records_caught_by_caller_witness :
    (5000 : ℚ) ≠ 0 ∧
      (main_compute [] 5000 = .error .emptyInput ∧
        compute_cps [] [] [] 5000 = .ok 0) :=
  ⟨by norm_num, empty_records_caught_by_caller 5000 (by norm_num)⟩

/-- C6: on the spec's concrete scenario — fixed costs `30` and `75`,
per-call costs `0.0088` and `0.02`, two calls per search each, search
volume `5000` — `compute_cps` returns exactly `0.0786`. -/
theorem compute_cps_concrete_scenario :
    compute_cps [30, 75] [0.0088, 0.02] [2, 2] 5000 = .ok 0.0786 := by
  rw [compute_cps_eq (P := [30, 75]) (C := [0.0088, 0.02]) (A := [2, 2]) rfl rfl
    (by norm_num)]
  norm_num [fixedTerm, variableTerm]

/-- C9: called directly on three empty lists and a nonzero search volume,
`compute_cps` raises no error and returns `0`: the length check passes and
both sums are empty. -/
theorem compute_cps_empty_lists (N_s : ℚ) (hN : N_s ≠ 0) :
    compute_cps [] [] [] N_s = .ok 0 := by
  rw [compute_cps_eq rfl rfl hN]
  simp [fixedTerm, variableTerm]

theorem compute_cps_empty_lists_witness :
    (7 : ℚ) ≠ 0 ∧ compute_cps [] [] [] 7 = .ok 0 :=
  ⟨by norm_num, compute_cps_empty_lists 7 (by norm_num)⟩

/-- C7: linearity of the CPS. Doubling every fixed cost doubles the
fixed-cost term; replacing the search volume `N` by `2 * N` halves the
fixed-cost term (`fixedTerm P / (2 * N)`) while the variable term is
unchanged; and the result always decomposes as fixed term plus variable
term. -/
theorem compute_cps_linear (P C A : List ℚ) (N : ℚ) (_h0 : P ≠ [])
    (h1 : P.length = C.length) (h2 : C.length = A.length) (hN : 0 < N) :
    compute_cps (P.map fun x => 2 * x) C A N =
        .ok (2 * (fixedTerm P / N) + variableTerm C A) ∧
      compute_cps P C A (2 * N) =
        .ok (fixedTerm P / (2 * N) + variableTerm C A) ∧
      compute_cps P C A N = .ok (fixedTerm P / N + variableTerm C A) := by
  have hN' : N ≠ 0 := ne_of_gt hN
  refine ⟨?_, ?_, compute_cps_eq h1 h2 hN'⟩
  · rw [compute_cps_eq (by simpa using h1) h2 hN']
    simp only [fixedTerm, sum_map_two_mul, mul_div_assoc]
  · exact compute_cps_eq h1 h2 (mul_ne_zero two_ne_zero hN')

theorem compute_cps_linear_witness :
    ([30, 75] : List ℚ) ≠ [] ∧ ([30, 75] : List ℚ).length = [0.0088, 0.02].length ∧
      ([0.0088, 0.02] : List ℚ).length = [2, 2].length ∧ (0 : ℚ) < 5000 ∧
      (compute_cps ([30, 75].map fun x => 2 * x) [0.0088, 0.02] [2, 2] 5000 =
          .ok (2 * (fixedTerm [30, 75] / 5000) + variableTerm [0.0088, 0.02] [2, 2]) ∧
        compute_cps [30, 75] [0.0088, 0.02] [2, 2] (2 * 5000) =
          .ok (fixedTerm [30, 75] / (2 * 5000) + variableTerm [0.0088, 0.02] [2, 2]) ∧
        compute_cps [30, 75] [0.0088, 0.02] [2, 2] 5000 =
          .ok (fixedTerm [30, 75] / 5000 + variableTerm [0.0088, 0.02] [2, 2])) :=
  ⟨by simp, rfl, rfl, by norm_num,
    compute_cps_linear [30, 75] [0.0088, 0.02] [2, 2] 5000 (by simp) rfl rfl
      (by norm_num)⟩

/-- C8: the CPS of a record table is invariant under any permutation of
its rows: record order is not semantically meaningful to the formula. -/
theorem cps_of_records_perm_invariant (R S : List PlatformCostRecord) (N : ℚ)
    (hp : R.Perm S) (hN : 0 < N) :
    cps_of_records R N = cps_of_records S N := by
  have hN' : N ≠ 0 := ne_of_gt hN
  unfold cps_of_records
  rw [compute_cps_eq (by simp) (by simp) hN',
    compute_cps_eq (by simp) (by simp) hN']
  have hfix : fixedTerm (R.map (·.fixedCost)) = fixedTerm (S.map (·.fixedCost)) :=
    (hp.map _).sum_eq
  have hvar : variableTerm (R.map (·.costPerCall)) (R.map (·.callsPerSearch)) =
      variableTerm (S.map (·.costPerCall)) (S.map (·.callsPerSearch)) := by
    unfold variableTerm
    rw [List.zip_map', List.zip_map', List.map_map, List.map_map]
    exact (hp.map _).sum_eq
  rw [hfix, hvar]

theorem cps_of_records_perm_invariant_witness :
    (List.Perm [⟨"Clarifai", 30, 0.0088, 2⟩, ⟨"SerpAPI", 75, 0.02, 2⟩]
        [(⟨"SerpAPI", 75, 0.02, 2⟩ : PlatformCostRecord), ⟨"Clarifai", 30, 0.0088, 2⟩]) ∧
      (0 : ℚ) < 5000 ∧
      cps_of_records [⟨"Clarifai", 30, 0.0088, 2⟩, ⟨"SerpAPI", 75, 0.02, 2⟩] 5000 =
        cps_of_records [⟨"SerpAPI", 75, 0.02, 2⟩, ⟨"Clarifai", 30, 0.0088, 2⟩] 5000 :=
  ⟨List.Perm.swap _ _ _, by norm_num,
    cps_of_records_perm_invariant _ _ 5000 (List.Perm.swap _ _ _) (by norm_num)⟩

theorem evaluateRange_ok_of {P C A : List ℚ} {mn mx sp : ℚ} {L : List ℤ}
    {M : List ℚ} (hguard : mn < mx ∧ 0 < sp)
    (hrange : pyRange (ratTrunc mn) (ratTrunc mx + 1) (ratTrunc sp) = .ok L)
    (hmap : mapExcept (fun v => compute_cps P C A (v : ℚ)) L = .ok M) :
    evaluateRange P C A mn mx sp = .ok (L.zip M) := by
  unfold evaluateRange
  rw [if_pos hguard, hrange]
  simp only [hmap]

theorem pyRange_count (a b s : ℤ) (hs : 1 ≤ s) (hab : a < b) :
    ((b + 1 - a + s - 1).tdiv s).toNat = (b - a).toNat / s.toNat + 1 := by
  have h1 : b + 1 - a + s - 1 = (b - a) + s := by ring
  rw [h1]
  have hm : ((b - a).toNat : ℤ) = b - a := Int.toNat_of_nonneg (by omega)
  have hn : ((s).toNat : ℤ) = s := Int.toNat_of_nonneg (by omega)
  rw [← hm, ← hn, ← Int.ofNat_add, ← Int.ofNat_tdiv, Int.toNat_natCast]
  exact Nat.add_div_right _ (by omega)

theorem pyRange_ok (a b s : ℤ) (hs : 1 ≤ s) (hab : a < b) :
    pyRange a (b + 1) s = .ok (specArithSeq a b s) := by
  unfold pyRange specArithSeq
  rw [if_neg (by omega : ¬s = 0), if_pos (by omega : 0 < s),
    if_pos (le_of_lt hab), pyRange_count a b s hs hab]

theorem specArithSeq_mem {a b s x : ℤ} (hs : 0 ≤ s)
    (hx : x ∈ specArithSeq a b s) : a ≤ x := by
  unfold specArithSeq at hx
  by_cases hab : a ≤ b
  · rw [if_pos hab] at hx
    obtain ⟨i, _, rfl⟩ := List.mem_map.mp hx
    exact le_add_of_nonneg_right (mul_nonneg hs (Int.ofNat_nonneg i))
  · rw [if_neg hab] at hx
    exact absurd hx (List.not_mem_nil x)

theorem specArithSeq_pairwise (a b s : ℤ) (hs : 1 ≤ s) :
    (specArithSeq a b s).Pairwise (· < ·) := by
  unfold specArithSeq
  by_cases hab : a ≤ b
  · rw [if_pos hab]
    refine List.Pairwise.map _ ?_ (List.pairwise_lt_range _)
    intro i j hij
    have hmul : s * (i : ℤ) < s * (j : ℤ) :=
      mul_lt_mul_of_pos_left (by exact_mod_cast hij) (by omega : (0 : ℤ) < s)
    exact add_lt_add_left hmul a
  · rw [if_neg hab]
    exact List.Pairwise.nil

/-- C4: whenever the sweep range has `min ≥ max` or `step ≤ 0`, the range
evaluator takes the invalid-range error branch and produces no series at
all (in particular the CPS calculator is never invoked at any sweep
point). -/
theorem evaluateRange_invalid_range (P C A : List ℚ) (mn mx sp : ℚ)
    (h : mx ≤ mn ∨ sp ≤ 0) :
    evaluateRange P C A mn mx sp = .error .invalidRange := by
  unfold evaluateRange
  rw [if_neg]
  rintro ⟨hlt, hsp⟩
  rcases h with h | h
  · exact absurd hlt (not_lt.mpr h)
  · exact absurd hsp (not_lt.mpr h)

theorem evaluateRange_invalid_range_witness :
    ((1000 : ℚ) ≤ 10000 ∨ (500 : ℚ) ≤ 0) ∧
      evaluateRange [30, 75] [0.0088, 0.02] [2, 2] 10000 1000 500 =
        .error .invalidRange :=
  ⟨Or.inl (by norm_num),
    evaluateRange_invalid_range [30, 75] [0.0088, 0.02] [2, 2] 10000 1000 500
      (Or.inl (by norm_num))⟩

/-- C5 counterexample: the sweep min `1000.5`, max `2000`, step `500`
satisfies `min < max` and `step > 0`, yet the evaluator does not produce
the arithmetic sequence `1000.5, 1500.5, ...` the claim describes: the
parameters are truncated first, so the series starts at `1000 ≠ 1000.5`
(and has three points where the claimed sequence has two). -/
theorem evaluateRange_fractional_min_counterexample :
    (1000.5 : ℚ) < 2000 ∧ (0 : ℚ) < 500 ∧
      evaluateRange [1] [0] [0] 1000.5 2000 500 =
        .ok [(1000, 1 / 1000), (1500, 1 / 1500), (2000, 1 / 2000)] ∧
      ((1000 : ℚ) ≠ 1000.5) := by
  refine ⟨by norm_num, by norm_num, ?_, by norm_num⟩
  have htr1 : ratTrunc (1000.5 : ℚ) = 1000 := by
    rw [ratTrunc_eq_floor (by norm_num)]; norm_num
  have htr2 : ratTrunc (2000 : ℚ) = 2000 := by
    rw [ratTrunc_eq_floor (by norm_num)]; norm_num
  have htr3 : ratTrunc (500 : ℚ) = 500 := by
    rw [ratTrunc_eq_floor (by norm_num)]; norm_num
  have hrange : pyRange (ratTrunc (1000.5 : ℚ)) (ratTrunc (2000 : ℚ) + 1)
      (ratTrunc (500 : ℚ)) = .ok [1000, 1500, 2000] := by
    rw [htr1, htr2, htr3]; decide
  have hval : ∀ x ∈ ([1000, 1500, 2000] : List ℤ),
      compute_cps [1] [0] [0] (x : ℚ) =
        .ok (fixedTerm [1] / (x : ℚ) + variableTerm [0] [0]) := by
    intro x hx
    have hxne : x ≠ 0 := by
      simp only [List.mem_cons, List.not_mem_nil, or_false] at hx
      rcases hx with rfl | rfl | rfl <;> norm_num
    exact compute_cps_eq (P := [1]) (C := [0]) (A := [0]) rfl rfl
      (by exact_mod_cast hxne)
  have hmap := mapExcept_ok (fun v => compute_cps [1] [0] [0] (v : ℚ))
    (fun v => fixedTerm [1] / (v : ℚ) + variableTerm [0] [0])
    [1000, 1500, 2000] hval
  rw [evaluateRange_ok_of ⟨by norm_num, by norm_num⟩ hrange hmap, zip_map_self]
  norm_num [fixedTerm, variableTerm]

/-- C5 (amended): for aligned records and a sweep whose min, max and step
are integer-valued with `1 ≤ min < max` and `step ≥ 1`, the evaluator
produces exactly the arithmetic sequence `min, min + step, ..., ≤ max`
(endpoint included when it lies on a step boundary), pairing each value
with its CPS result, and the sequence of first components is strictly
increasing (hence the output length equals the sequence length).  For
non-integer parameters the values swept are those of the truncated
parameters instead. -/
theorem evaluateRange_integer_sweep (P C A : List ℚ) (a b s : ℤ)
    (h1 : P.length = C.length) (h2 : C.length = A.length)
    (ha : 1 ≤ a) (hab : a < b) (hs : 1 ≤ s) :
    evaluateRange P C A (a : ℚ) (b : ℚ) (s : ℚ) =
        .ok ((specArithSeq a b s).map fun v =>
          (v, fixedTerm P / (v : ℚ) + variableTerm C A)) ∧
      (specArithSeq a b s).Pairwise (· < ·) := by
  constructor
  · have hrange : pyRange (ratTrunc (a : ℚ)) (ratTrunc (b : ℚ) + 1)
        (ratTrunc (s : ℚ)) = .ok (specArithSeq a b s) := by
      rw [ratTrunc_intCast, ratTrunc_intCast, ratTrunc_intCast]
      exact pyRange_ok a b s hs hab
    have hmap : mapExcept (fun v => compute_cps P C A (v : ℚ))
        (specArithSeq a b s) =
        .ok ((specArithSeq a b s).map fun (v : ℤ) =>
          fixedTerm P / (v : ℚ) + variableTerm C A) := by
      apply mapExcept_ok
      intro x hx
      have hax : a ≤ x := specArithSeq_mem (by omega) hx
      have hx0 : (x : ℚ) ≠ 0 := by
        have hxne : x ≠ 0 := by omega
        exact_mod_cast hxne
      exact compute_cps_eq h1 h2 hx0
    have hg : (a : ℚ) < (b : ℚ) ∧ (0 : ℚ) < (s : ℚ) :=
      ⟨by exact_mod_cast hab, by exact_mod_cast (show (0 : ℤ) < s by omega)⟩
    rw [evaluateRange_ok_of hg hrange hmap, zip_map_self]
  · exact specArithSeq_pairwise a b s hs

theorem evaluateRange_integer_sweep_witness :
    ([1] : List ℚ).length = [0].length ∧ ([0] : List ℚ).length = [0].length ∧
      (1 : ℤ) ≤ 1000 ∧ (1000 : ℤ) < 10000 ∧ (1 : ℤ) ≤ 500 ∧
      (evaluateRange [1] [0] [0] ((1000 : ℤ) : ℚ) ((10000 : ℤ) : ℚ)
          ((500 : ℤ) : ℚ) =
          .ok ((specArithSeq 1000 10000 500).map fun v =>
            (v, fixedTerm [1] / (v : ℚ) + variableTerm [0] [0])) ∧
        (specArithSeq 1000 10000 500).Pairwise (· < ·)) ∧
      (specArithSeq 1000 10000 500).length = 19 ∧
      (specArithSeq 1000 10000 500).head? = some 1000 ∧
      (specArithSeq 1000 10000 500).getLast? = some 10000 :=
  ⟨rfl, rfl, by decide, by decide, by decide,
    evaluateRange_integer_sweep [1] [0] [0] 1000 10000 500 rfl rfl
      (by decide) (by decide) (by decide),
    by decide, by decide, by decide⟩

/-- C10: the sweep parameters are truncated toward zero before the
sequence is generated — whenever both the raw parameters and their
truncations pass the range guard, sweeping over real-valued parameters
produces exactly the same output as sweeping over their truncations:
fractional parts are discarded, not swept over. -/
theorem evaluateRange_truncates_parameters (P C A : List ℚ) (mn mx sp : ℚ)
    (h1 : mn < mx) (h2 : 0 < sp) (h3 : ratTrunc mn < ratTrunc mx)
    (h4 : 0 < ratTrunc sp) :
    evaluateRange P C A mn mx sp =
      evaluateRange P C A ((ratTrunc mn : ℤ) : ℚ) ((ratTrunc mx : ℤ) : ℚ)
        ((ratTrunc sp : ℤ) : ℚ) := by
  unfold evaluateRange
  rw [if_pos ⟨h1, h2⟩,
    if_pos ⟨by exact_mod_cast h3, by exact_mod_cast h4⟩,
    ratTrunc_intCast, ratTrunc_intCast, ratTrunc_intCast]

theorem evaluateRange_truncates_parameters_witness :
    (1000.7 : ℚ) < 3000.2 ∧ (0 : ℚ) < 500.9 ∧
      ratTrunc (1000.7 : ℚ) < ratTrunc (3000.2 : ℚ) ∧
      0 < ratTrunc (500.9 : ℚ) ∧
      evaluateRange [1] [0] [0] 1000.7 3000.2 500.9 =
        evaluateRange [1] [0] [0] ((ratTrunc (1000.7 : ℚ) : ℤ) : ℚ)
          ((ratTrunc (3000.2 : ℚ) : ℤ) : ℚ) ((ratTrunc (500.9 : ℚ) : ℤ) : ℚ) := by
  have h3 : ratTrunc (1000.7 : ℚ) < ratTrunc (3000.2 : ℚ) := by
    rw [ratTrunc_eq_floor (by norm_num), ratTrunc_eq_floor (by norm_num)]
    norm_num
  have h4 : 0 < ratTrunc (500.9 : ℚ) := by
    rw [ratTrunc_eq_floor (by norm_num)]
    norm_num
  exact ⟨by norm_num, by norm_num, h3, h4,
    evaluateRange_truncates_parameters [1] [0] [0] 1000.7 3000.2 500.9
      (by norm_num) (by norm_num) h3 h4⟩
